import Mathlib

/-!
Verification of the `AddAtomicMutex` lowering pass (src/src/AddAtomicMutex.cpp).

The pass has two stages run in sequence by `add_atomic_mutex`:
 * `RemoveUnnecessaryMutexUse` (the downgrade analyzer): clears the mutex
   name of every atomic region whose body contains no store whose value
   depends, through the active let-bindings, on a buffer written in the
   same body;
 * `AddAtomicMutex` (the mutex synthesizer): allocates one mutex array per
   surviving mutex name at the enclosing `Allocate` or producer
   `ProducerConsumer` node and wraps each surviving atomic region's body
   in lock/unlock calls.

The IR fragment relevant to the pass is embedded shallowly below: exprs
(`Expr`) and statements (`Stmt`) are trees, visitors become recursive
functions, the mutator with its `allocated_mutexes` set and the fatal
`internal_assert` becomes an `Except`-valued state-passing function.
In this embedding `Expr` cannot contain a `Stmt`, so a store node never
occurs inside an expression; traversal clauses of the C++ visitors that
walk expressions looking for stores are therefore vacuous and the
corresponding Lean functions only recurse through statements.
-/

namespace AddAtomicMutexPass

/-- Scalar types appearing in the pass: `type_of<int>()`,
`type_of<halide_mutex_array *>()`, `Handle()` and the type of
`const_true()`. -/
inductive IRType where
  | int32
  | boolTy
  | handleTy
  | mutexArrayPtr
deriving DecidableEq, Repr

/-- Memory types of `Allocate` nodes; the synthesized mutex allocation uses
`MemoryType::Stack`. -/
inductive MemoryType where
  | stackMem
  | heapMem
  | autoMem
deriving DecidableEq, Repr

mutual

/-- The expression fragment of the IR used by the pass: integer immediates,
`const_true()`, variables, expression-level lets, multiplications (used for
extent products) and external calls (whose argument vector is the mutually
defined `ExprList`). -/
inductive Expr where
  | intLit (n : Int)
  | boolLit (b : Bool)
  | var (ty : IRType) (name : String)
  | letE (name : String) (value body : Expr)
  | mul (a b : Expr)
  | call (ty : IRType) (name : String) (args : ExprList)

/-- Argument vectors of calls (`std::vector<Expr>`). -/
inductive ExprList where
  | nil
  | cons (head : Expr) (tail : ExprList)

end

deriving instance DecidableEq for Expr
deriving instance DecidableEq for ExprList
deriving instance Repr for Expr
deriving instance Repr for ExprList

/-- The statement fragment of the IR used by the pass. Field order of
`allocate` follows `Allocate::make(name, type, memory_type, extents,
condition, body, new_expr, free_function)`. -/
inductive Stmt where
  | letStmt (name : String) (value : Expr) (body : Stmt)
  | store (name : String) (predicate value index : Expr)
  | atomic (producer_name mutex_name : String) (body : Stmt)
  | allocate (name : String) (ty : IRType) (memType : MemoryType)
      (extents : List Expr) (condition : Expr) (body : Stmt)
      (new_expr : Option Expr) (free_function : String)
  | producerConsumer (name : String) (is_producer : Bool) (body : Stmt)
  | block (first rest : Stmt)
  | evaluate (e : Expr)
deriving DecidableEq, Repr

/-- Modelled from the spec: an output buffer of a function in the function
environment ("each with a dimensionality and per-dimension extent
expression", `OutputImageParam` of Func.h, which is not under src/).
`extents` lists `dim(i).extent()` for `i < dimensions()`. -/
structure OutputBufferParam where
  name : String
  extents : List Expr
deriving DecidableEq, Repr

/-- Modelled from the spec: a function definition in the function
environment, "exposing zero or more declared output buffers"
(`Function`/`Func::output_buffers()` of Func.h, not under src/). -/
structure FuncDef where
  outputBuffers : List OutputBufferParam
deriving DecidableEq, Repr

/-- The read-only function environment `const map<string, Function> &env`. -/
def Env : Type := List (String × FuncDef)

/-- `env.find(name)`: first binding of `name` in the environment, if any. -/
def envFind (env : Env) (n : String) : Option FuncDef :=
  match env with
  | [] => none
  | (k, f) :: rest => if k = n then some f else envFind rest n

/-- Errors of the synthesizer stage. `noOutputBuffers` is the fatal
`internal_assert` in `AddAtomicMutex::visit(const ProducerConsumer *)`;
`envLookupFailed` makes observable the dereference of a failed `env.find`
at the same visit (undefined behavior in the C++). -/
inductive PassError where
  | envLookupFailed (name : String)
  | noOutputBuffers (name : String)
deriving DecidableEq, Repr

mutual

/-- Free variable names of an expression (a let hides its bound name in its
body, not in its value). -/
def freeVars : Expr → List String
  | .intLit _ => []
  | .boolLit _ => []
  | .var _ x => [x]
  | .letE n v b => freeVars v ++ (freeVars b).filter (fun y => decide (y ≠ n))
  | .mul a b => freeVars a ++ freeVars b
  | .call _ _ args => freeVarsList args

/-- Free variable names of an argument vector. -/
def freeVarsList : ExprList → List String
  | .nil => []
  | .cons e es => freeVars e ++ freeVarsList es

end

/-- Modelled from the spec: the variable-dependency test (`expr_uses_vars`
of ExprUsesVar.h, which is not under src/). Following the spec's words, "a
variable-dependency test that, given a variable reference and a scope of
active let-bindings, determines whether that reference transitively depends
on any name in a given set": the variable `x` depends on `names` under the
binding chain `lb` (innermost binding first) if `x` is itself one of
`names`, or `x` is bound in the chain and some free variable of the bound
value depends under the bindings outer to that binding. -/
def varDeps (names : List String) : List (String × Expr) → String → Bool
  | [], x => decide (x ∈ names)
  | (n, v) :: rest, x =>
      decide (x ∈ names) ||
        if x = n then (freeVars v).any (fun y => varDeps names rest y)
        else varDeps names rest x

/-- Modelled from the spec: `expr_uses_vars(e, names, scope)` — whether `e`
transitively depends on any of `names` through the active let-bindings.
In `FindAtomicLetBindings` it is only applied to single `Variable` nodes. -/
def expr_uses_vars (names : List String) (lb : List (String × Expr)) (e : Expr) : Bool :=
  (freeVars e).any (fun y => varDeps names lb y)

mutual

/-- `FindAtomicLetBindings`, expression part. `sn` is the `store_names`
scope, `lb` the `let_bindings` scope and `ins` the `inside_store` string
(empty when not inside the value of a designated store). A `Variable` is
reported exactly when we are inside a store value and the variable
transitively depends on one of the store names (`visit(const Variable *)`);
`Let` values are visited under the current bindings and bodies under the
extended bindings. -/
def falbExpr (sn : List String) (lb : List (String × Expr)) (ins : String) : Expr → Bool
  | .intLit _ => false
  | .boolLit _ => false
  | .var ty x => if ins = "" then false else expr_uses_vars sn lb (.var ty x)
  | .letE n v b => falbExpr sn lb ins v || falbExpr sn ((n, v) :: lb) ins b
  | .mul a b => falbExpr sn lb ins a || falbExpr sn lb ins b
  | .call _ _ args => falbExprList sn lb ins args

/-- `FindAtomicLetBindings` over an argument vector. -/
def falbExprList (sn : List String) (lb : List (String × Expr)) (ins : String) : ExprList → Bool
  | .nil => false
  | .cons e es => falbExpr sn lb ins e || falbExprList sn lb ins es

end

/-- `FindAtomicLetBindings`, statement part. At a `Store` the predicate and
index are visited with the current `inside_store`, and the value is visited
with `inside_store` set to the store's name when that name is one of the
designated `store_names` (`visit(const Store *)`). -/
def falbStmt (sn : List String) (lb : List (String × Expr)) (ins : String) : Stmt → Bool
  | .letStmt n v b => falbExpr sn lb ins v || falbStmt sn ((n, v) :: lb) ins b
  | .store n p v i =>
      falbExpr sn lb ins p ||
        (if n ∈ sn then falbExpr sn lb n v else falbExpr sn lb ins v) ||
        falbExpr sn lb ins i
  | .atomic _ _ b => falbStmt sn lb ins b
  | .allocate _ _ _ exts cond b newE _ =>
      exts.any (fun e => falbExpr sn lb ins e) ||
        falbExpr sn lb ins cond ||
        (match newE with | some e => falbExpr sn lb ins e | none => false) ||
        falbStmt sn lb ins b
  | .producerConsumer _ _ b => falbStmt sn lb ins b
  | .block a b => falbStmt sn lb ins a || falbStmt sn lb ins b
  | .evaluate e => falbExpr sn lb ins e

/-- `CollectStoreNames`: the names of all `Store` nodes inside a statement
(pushed into a `Scope<void>`, of which only membership is ever queried). -/
def collectStoreNames : Stmt → List String
  | .letStmt _ _ b => collectStoreNames b
  | .store n _ _ _ => [n]
  | .atomic _ _ b => collectStoreNames b
  | .allocate _ _ _ _ _ b _ _ => collectStoreNames b
  | .producerConsumer _ _ b => collectStoreNames b
  | .block a b => collectStoreNames a ++ collectStoreNames b
  | .evaluate _ => []

/-- `RemoveUnnecessaryMutexUse`: the downgrade analyzer. For every `Atomic`
node it collects the store names of the body, searches the body for a
lifted let binding with `FindAtomicLetBindings`, and when none is found
rebuilds the node with an empty mutex name (`Atomic::make(producer_name,
string(), body)`); in both branches the body is mutated recursively. (The
`remove_mutex_lock_names` set collected by the C++ class is never read by
`add_atomic_mutex` and is not modelled.) -/
def removeUnnecessaryMutexUse : Stmt → Stmt
  | .letStmt n v b => .letStmt n v (removeUnnecessaryMutexUse b)
  | .store n p v i => .store n p v i
  | .atomic pn mn body =>
      if falbStmt (collectStoreNames body) [] "" body then
        .atomic pn mn (removeUnnecessaryMutexUse body)
      else
        .atomic pn "" (removeUnnecessaryMutexUse body)
  | .allocate n ty mt exts cond b newE ff =>
      .allocate n ty mt exts cond (removeUnnecessaryMutexUse b) newE ff
  | .producerConsumer n isP b => .producerConsumer n isP (removeUnnecessaryMutexUse b)
  | .block a b => .block (removeUnnecessaryMutexUse a) (removeUnnecessaryMutexUse b)
  | .evaluate e => .evaluate e

/-- The mutable state of a `FindStoreInAtomicMutex` traversal: the `found`
flag and the recorded `producer_name` and `mutex_name`. -/
structure FindStoreState where
  found : Bool
  producer_name : String
  mutex_name : String
deriving DecidableEq, Repr

/-- Initial `FindStoreInAtomicMutex` state (`found = false`, names
default-constructed empty). -/
def initFindStoreState : FindStoreState :=
  { found := false, producer_name := "", mutex_name := "" }

/-- `FindStoreInAtomicMutex`: search for a `Store` to one of `store_names`
while inside an `Atomic` node with a non-empty mutex name. At an `Atomic`
node, when nothing was found yet and the mutex name is non-empty, the body
is searched with `in_atomic_mutex` set, and if the search succeeds the
node's `producer_name` and `mutex_name` overwrite the recorded ones;
otherwise the body is searched with the flags unchanged. A `Store` whose
name is in `store_names`, seen while `in_atomic_mutex`, sets `found`.
(Store nodes cannot occur inside expressions in this embedding, so only
statements are traversed.) -/
def findStoreGo (sn : List String) (inAM : Bool) (st : FindStoreState) : Stmt → FindStoreState
  | .atomic pn mn b =>
      if st.found = false ∧ mn ≠ "" then
        let st' := findStoreGo sn true st b
        if st'.found then { st' with producer_name := pn, mutex_name := mn } else st'
      else
        findStoreGo sn inAM st b
  | .store n _ _ _ =>
      if inAM = true ∧ n ∈ sn then { st with found := true } else st
  | .letStmt _ _ b => findStoreGo sn inAM st b
  | .allocate _ _ _ _ _ b _ _ => findStoreGo sn inAM st b
  | .producerConsumer _ _ b => findStoreGo sn inAM st b
  | .block a b => findStoreGo sn inAM (findStoreGo sn inAM st a) b
  | .evaluate _ => st

/-- A whole `FindStoreInAtomicMutex` traversal from the initial state
(`finder(store_names); stmt.accept(&finder)`). -/
def findStoreInAtomicMutexRun (sn : List String) (s : Stmt) : FindStoreState :=
  findStoreGo sn false initFindStoreState s

/-- `FindStoreIndex`: the index of the first `Store` node encountered, if
any (`index` is only assigned while still undefined). -/
def findStoreIndex : Stmt → Option Expr
  | .letStmt _ _ b => findStoreIndex b
  | .store _ _ _ i => some i
  | .atomic _ _ b => findStoreIndex b
  | .allocate _ _ _ _ _ b _ _ => findStoreIndex b
  | .producerConsumer _ _ b => findStoreIndex b
  | .block a b => (findStoreIndex a).orElse (fun _ => findStoreIndex b)
  | .evaluate _ => none

/-- Whether a statement contains any `Store` node at all. -/
def containsStore : Stmt → Bool
  | .letStmt _ _ b => containsStore b
  | .store _ _ _ _ => true
  | .atomic _ _ b => containsStore b
  | .allocate _ _ _ _ _ b _ _ => containsStore b
  | .producerConsumer _ _ b => containsStore b
  | .block a b => containsStore a || containsStore b
  | .evaluate _ => false

/-- `AddAtomicMutex::allocate_mutex`: wrap `body` into an `Allocate` of a
scalar `halide_mutex_array` named `mutex_name`, created by the external
call `halide_mutex_array_create(extent)` and torn down by the custom free
function `halide_mutex_array_destroy` when the allocation's scope ends. -/
def allocate_mutex (mutex_name : String) (extent : Expr) (body : Stmt) : Stmt :=
  .allocate mutex_name .handleTy .stackMem [] (.boolLit true) body
    (some (.call .mutexArrayPtr "halide_mutex_array_create"
      (.cons extent .nil)))
    "halide_mutex_array_destroy"

/-- The element-count expression for a mutex array: `Expr extent = Expr(1);
for (Expr e : op->extents) extent = extent * e;`. -/
def extentProduct (exts : List Expr) : Expr :=
  exts.foldl (fun a e => .mul a e) (.intLit 1)

/-- `AddAtomicMutex`: the mutex synthesizer. The traversal threads the
`allocated_mutexes` set and can stop with a `PassError`:
 * `Allocate` nodes whose body contains a store to the allocated buffer
   inside a lock-requiring atomic region get (once per mutex name) their
   body wrapped by `allocate_mutex` with the product of the declared
   extents;
 * producer-phase `ProducerConsumer` nodes resolve their function in `env`
   (a failed lookup is dereferenced: `envLookupFailed`), fatally assert
   that it has output buffers (`noOutputBuffers`), and then do the same
   with the output-buffer names and the first output buffer's extents;
 * `Atomic` nodes with a non-empty mutex name are rebuilt with their
   (unmutated) body wrapped between `halide_mutex_array_lock` and
   `halide_mutex_array_unlock` calls on the index of the first store of
   the body, or index `0` when the body contains no store. -/
def addAtomicMutexStmt (env : Env) : List String → Stmt → Except PassError (List String × Stmt)
  | am, .letStmt n v b =>
      match addAtomicMutexStmt env am b with
      | .error e => .error e
      | .ok (am', b') => .ok (am', .letStmt n v b')
  | am, .store n p v i => .ok (am, .store n p v i)
  | am, .atomic pn mn body =>
      if mn = "" then
        match addAtomicMutexStmt env am body with
        | .error e => .error e
        | .ok (am', b') => .ok (am', .atomic pn mn b')
      else
        let index := (findStoreIndex body).getD (.intLit 0)
        let mutex_array : Expr := .var .mutexArrayPtr mn
        .ok (am, .atomic pn mn (.block
          (.evaluate (.call .int32 "halide_mutex_array_lock"
            (.cons mutex_array (.cons index .nil))))
          (.block body
            (.evaluate (.call .int32 "halide_mutex_array_unlock"
              (.cons mutex_array (.cons index .nil)))))))
  | am, .allocate n ty mt exts cond body newE ff =>
      let fr := findStoreInAtomicMutexRun [n] body
      if fr.found = false then
        match addAtomicMutexStmt env am body with
        | .error e => .error e
        | .ok (am', b') => .ok (am', .allocate n ty mt exts cond b' newE ff)
      else if fr.mutex_name ∈ am then
        match addAtomicMutexStmt env am body with
        | .error e => .error e
        | .ok (am', b') => .ok (am', .allocate n ty mt exts cond b' newE ff)
      else
        match addAtomicMutexStmt env (fr.mutex_name :: am) body with
        | .error e => .error e
        | .ok (am', b') =>
            .ok (am', .allocate n ty mt exts cond
              (allocate_mutex fr.mutex_name (extentProduct exts) b') newE ff)
  | am, .producerConsumer n isP body =>
      if isP = false then
        match addAtomicMutexStmt env am body with
        | .error e => .error e
        | .ok (am', b') => .ok (am', .producerConsumer n isP b')
      else
        match envFind env n with
        | none => .error (.envLookupFailed n)
        | some f =>
            match f.outputBuffers with
            | [] => .error (.noOutputBuffers n)
            | b0 :: bs =>
                let storeNames := (b0 :: bs).map (fun b => b.name)
                let fr := findStoreInAtomicMutexRun storeNames body
                if fr.found = false then
                  match addAtomicMutexStmt env am body with
                  | .error e => .error e
                  | .ok (am', b') => .ok (am', .producerConsumer n isP b')
                else if fr.mutex_name ∈ am then
                  match addAtomicMutexStmt env am body with
                  | .error e => .error e
                  | .ok (am', b') => .ok (am', .producerConsumer n isP b')
                else
                  match addAtomicMutexStmt env (fr.mutex_name :: am) body with
                  | .error e => .error e
                  | .ok (am', b') =>
                      .ok (am', .producerConsumer n isP
                        (allocate_mutex fr.mutex_name (extentProduct b0.extents) b'))
  | am, .block a b =>
      match addAtomicMutexStmt env am a with
      | .error e => .error e
      | .ok (am1, a') =>
          match addAtomicMutexStmt env am1 b with
          | .error e => .error e
          | .ok (am2, b') => .ok (am2, .block a' b')
  | am, .evaluate e => .ok (am, .evaluate e)

/-- The pipeline entry point `add_atomic_mutex(s, env)`: run the downgrade
analyzer, then the mutex synthesizer with an empty `allocated_mutexes`
set. -/
def add_atomic_mutex (s : Stmt) (env : Env) : Except PassError Stmt :=
  match addAtomicMutexStmt env [] (removeUnnecessaryMutexUse s) with
  | .error e => .error e
  | .ok (_, s') => .ok s'

/-! ### Spec-side definitions

The following definitions formalize the wording of the specification and
of the claims; they are deliberately written independently of the visitor
structure above and are related to it by the theorems below. -/

mutual

/-- Every variable occurrence of an expression, paired with the chain of
let-bindings active at that occurrence (`lb` extended by each enclosing
expression-level let). -/
def varsWithBindings (lb : List (String × Expr)) : Expr → List (List (String × Expr) × String)
  | .intLit _ => []
  | .boolLit _ => []
  | .var _ x => [(lb, x)]
  | .letE n v b => varsWithBindings lb v ++ varsWithBindings ((n, v) :: lb) b
  | .mul a b => varsWithBindings lb a ++ varsWithBindings lb b
  | .call _ _ args => varsWithBindingsList lb args

/-- `varsWithBindings` over an argument vector. -/
def varsWithBindingsList (lb : List (String × Expr)) : ExprList → List (List (String × Expr) × String)
  | .nil => []
  | .cons e es => varsWithBindings lb e ++ varsWithBindingsList lb es

end

/-- Every `Store` node of a statement, as a triple of the let-binding chain
active at the store, the store's buffer name and the stored value. -/
def storesWithBindings (lb : List (String × Expr)) : Stmt → List (List (String × Expr) × String × Expr)
  | .letStmt n v b => storesWithBindings ((n, v) :: lb) b
  | .store n _ v _ => [(lb, n, v)]
  | .atomic _ _ b => storesWithBindings lb b
  | .allocate _ _ _ _ _ b _ _ => storesWithBindings lb b
  | .producerConsumer _ _ b => storesWithBindings lb b
  | .block a b => storesWithBindings lb a ++ storesWithBindings lb b
  | .evaluate _ => []

/-- The claim's downgrade condition, in the spec's words: the body contains
a memory-store whose stored value contains a variable reference that
transitively depends, through the chain of let-bindings active at that
occurrence, on a buffer name written by some store of the same body. -/
def specStoreDep (body : Stmt) : Bool :=
  (storesWithBindings [] body).any fun sb =>
    (varsWithBindings sb.1 sb.2.2).any fun vx =>
      varDeps (collectStoreNames body) vx.1 vx.2

/-- Relation of C7: `t` is obtained from `s` by leaving every node intact
except that each atomic region's mutex name is either kept or cleared to
the empty string (never invented, never renamed). -/
inductive MutexNameDowngrade : Stmt → Stmt → Prop where
  | letStmt {n v b b'} : MutexNameDowngrade b b' →
      MutexNameDowngrade (.letStmt n v b) (.letStmt n v b')
  | store {n p v i} : MutexNameDowngrade (.store n p v i) (.store n p v i)
  | atomic {pn mn mn' b b'} : (mn' = mn ∨ mn' = "") → MutexNameDowngrade b b' →
      MutexNameDowngrade (.atomic pn mn b) (.atomic pn mn' b')
  | allocate {n ty mt exts cond b b' newE ff} : MutexNameDowngrade b b' →
      MutexNameDowngrade (.allocate n ty mt exts cond b newE ff)
        (.allocate n ty mt exts cond b' newE ff)
  | producerConsumer {n isP b b'} : MutexNameDowngrade b b' →
      MutexNameDowngrade (.producerConsumer n isP b) (.producerConsumer n isP b')
  | block {a a' b b'} : MutexNameDowngrade a a' → MutexNameDowngrade b b' →
      MutexNameDowngrade (.block a b) (.block a' b')
  | evaluate {e} : MutexNameDowngrade (.evaluate e) (.evaluate e)

/-- Number of `Allocate` nodes of a statement that carry the name `m` and
the mutex tear-down free function — the shape of every mutex-array
allocation emitted by `allocate_mutex`. -/
def mutexAllocCount (m : String) : Stmt → Nat
  | .letStmt _ _ b => mutexAllocCount m b
  | .store _ _ _ _ => 0
  | .atomic _ _ b => mutexAllocCount m b
  | .allocate n _ _ _ _ b _ ff =>
      (if n = m ∧ ff = "halide_mutex_array_destroy" then 1 else 0) + mutexAllocCount m b
  | .producerConsumer _ _ b => mutexAllocCount m b
  | .block a b => mutexAllocCount m a + mutexAllocCount m b
  | .evaluate _ => 0

/-- The argument vectors of all `halide_mutex_array_create` calls attached
as `new_expr` to `Allocate` nodes of a statement, in traversal order. -/
def mutexCreateArgs : Stmt → List ExprList
  | .letStmt _ _ b => mutexCreateArgs b
  | .store _ _ _ _ => []
  | .atomic _ _ b => mutexCreateArgs b
  | .allocate _ _ _ _ _ b newE _ =>
      (match newE with
       | some (.call _ nm args) =>
           if nm = "halide_mutex_array_create" then [args] else []
       | _ => []) ++ mutexCreateArgs b
  | .producerConsumer _ _ b => mutexCreateArgs b
  | .block a b => mutexCreateArgs a ++ mutexCreateArgs b
  | .evaluate _ => []

/-- Result of a pipeline run mapped to the create-call argument vectors:
`none` when the run aborts. -/
def pipelineCreateArgs (s : Stmt) (env : Env) : Option (List ExprList) :=
  match add_atomic_mutex s env with
  | .error _ => none
  | .ok s' => some (mutexCreateArgs s')

/-- The lock/unlock wrapping demanded of a surviving atomic region's body:
a `halide_mutex_array_lock` call on the mutex-array variable `m` strictly
precedes some inner statement, and a `halide_mutex_array_unlock` call on
the same array and the same index strictly follows it on the normal exit
path. -/
def lockWrapped (m : String) : Stmt → Bool
  | .block (.evaluate (.call _ c1 (.cons (.var _ m1) (.cons i1 .nil))))
      (.block _ (.evaluate (.call _ c2 (.cons (.var _ m2) (.cons i2 .nil))))) =>
      decide (c1 = "halide_mutex_array_lock") &&
        decide (c2 = "halide_mutex_array_unlock") &&
        decide (m1 = m) && decide (m2 = m) && decide (i1 = i2)
  | _ => false

/-- C2 as stated: every atomic region with a non-empty mutex name,
including regions nested inside the body of another surviving region, has
a lock-wrapped body. -/
def allSurvWrapped : Stmt → Bool
  | .letStmt _ _ b => allSurvWrapped b
  | .store _ _ _ _ => true
  | .atomic _ mn b =>
      if mn = "" then allSurvWrapped b else lockWrapped mn b && allSurvWrapped b
  | .allocate _ _ _ _ _ b _ _ => allSurvWrapped b
  | .producerConsumer _ _ b => allSurvWrapped b
  | .block a b => allSurvWrapped a && allSurvWrapped b
  | .evaluate _ => true

/-- C2 amended: every atomic region with a non-empty mutex name that is not
nested inside the body of another such region has a lock-wrapped body
(nothing is claimed below a surviving region, whose body the synthesizer
leaves unprocessed). -/
def outerSurvWrapped : Stmt → Bool
  | .letStmt _ _ b => outerSurvWrapped b
  | .store _ _ _ _ => true
  | .atomic _ mn b => if mn = "" then outerSurvWrapped b else lockWrapped mn b
  | .allocate _ _ _ _ _ b _ _ => outerSurvWrapped b
  | .producerConsumer _ _ b => outerSurvWrapped b
  | .block a b => outerSurvWrapped a && outerSurvWrapped b
  | .evaluate _ => true

/-- Hypothesis of C9: every producer-phase `ProducerConsumer` name occurring
in the tree is a key of the function environment. -/
def producerNamesBound (env : Env) : Stmt → Bool
  | .letStmt _ _ b => producerNamesBound env b
  | .store _ _ _ _ => true
  | .atomic _ _ b => producerNamesBound env b
  | .allocate _ _ _ _ _ b _ _ => producerNamesBound env b
  | .producerConsumer n isP b =>
      (decide (isP = false) || (envFind env n).isSome) && producerNamesBound env b
  | .block a b => producerNamesBound env a && producerNamesBound env b
  | .evaluate _ => true

/-- Nest a statement inside a chain of atomic regions, outermost first. -/
def wrapAtomics : List (String × String) → Stmt → Stmt
  | [], s => s
  | (pn, mn) :: ws, s => .atomic pn mn (wrapAtomics ws s)

/-! ### Concrete inputs used by witnesses and counterexamples -/

/-- An atomic body with a lifted let binding: the stored value reads `t`,
which is bound to a load of the stored-to buffer `hist`. -/
def c1WitnessBody : Stmt :=
  .letStmt "t" (.var .int32 "hist")
    (.store "hist" (.boolLit true) (.var .int32 "t") (.intLit 0))

/-- A body that is itself a surviving atomic region (used to observe that
the synthesizer wraps the original, unprocessed body). -/
def c3Body : Stmt := .atomic "q" "n" (.evaluate (.intLit 0))

/-- What the synthesizer produces when run on `c3Body` itself: the inner
region does get lock-wrapped when it is reached directly. -/
def c3BodyProcessed : Stmt :=
  .atomic "q" "n" (.block
    (.evaluate (.call .int32 "halide_mutex_array_lock"
      (.cons (.var .mutexArrayPtr "n") (.cons (.intLit 0) .nil))))
    (.block (.evaluate (.intLit 0))
      (.evaluate (.call .int32 "halide_mutex_array_unlock"
        (.cons (.var .mutexArrayPtr "n") (.cons (.intLit 0) .nil))))))

/-- An atomic region with mutex `m` storing (with a let-lifted dependency)
to the two buffers `N1` and `N2` of a split tuple. -/
def c4CexAtomic : Stmt :=
  .atomic "p" "m" (.letStmt "t" (.var .int32 "N1")
    (.block (.store "N1" (.boolLit true) (.var .int32 "t") (.intLit 0))
      (.store "N2" (.boolLit true) (.var .int32 "t") (.intLit 0))))

/-- Two nested allocations (`N1` with extent 7, `N2` with extent 8) whose
common body is one atomic region with mutex name `m` storing to both. -/
def c4CexIn : Stmt :=
  .allocate "N1" .int32 .stackMem [.intLit 7] (.boolLit true)
    (.allocate "N2" .int32 .stackMem [.intLit 8] (.boolLit true) c4CexAtomic none "")
    none ""

/-- A single allocation of `N` (extent 3) over a lock-requiring atomic
region storing to `N`. -/
def c4WitnessIn : Stmt :=
  .allocate "N" .int32 .stackMem [.intLit 3] (.boolLit true)
    (.atomic "p" "m" (.store "N" (.boolLit true) (.intLit 1) (.intLit 0))) none ""

/-- The synthesizer's output on `c4WitnessIn`. -/
def c4WitnessOut : Stmt :=
  .allocate "N" .int32 .stackMem [.intLit 3] (.boolLit true)
    (.allocate "m" .handleTy .stackMem [] (.boolLit true)
      (.atomic "p" "m" (.block
        (.evaluate (.call .int32 "halide_mutex_array_lock"
          (.cons (.var .mutexArrayPtr "m") (.cons (.intLit 0) .nil))))
        (.block (.store "N" (.boolLit true) (.intLit 1) (.intLit 0))
          (.evaluate (.call .int32 "halide_mutex_array_unlock"
            (.cons (.var .mutexArrayPtr "m") (.cons (.intLit 0) .nil)))))))
      (some (.call .mutexArrayPtr "halide_mutex_array_create"
        (.cons (.mul (.intLit 1) (.intLit 3)) .nil)))
      "halide_mutex_array_destroy")
    none ""

/-- An allocation of `N` (extent 2) over an atomic region that keeps its
mutex through the downgrade analysis (let-lifted dependency on `N`). -/
def c5WitnessIn : Stmt :=
  .allocate "N" .int32 .stackMem [.intLit 2] (.boolLit true)
    (.atomic "p" "m" (.letStmt "t" (.var .int32 "N")
      (.store "N" (.boolLit true) (.var .int32 "t") (.intLit 0)))) none ""

/-- The pipeline's output on `c5WitnessIn`. -/
def c5WitnessOut : Stmt :=
  .allocate "N" .int32 .stackMem [.intLit 2] (.boolLit true)
    (.allocate "m" .handleTy .stackMem [] (.boolLit true)
      (.atomic "p" "m" (.block
        (.evaluate (.call .int32 "halide_mutex_array_lock"
          (.cons (.var .mutexArrayPtr "m") (.cons (.intLit 0) .nil))))
        (.block (.letStmt "t" (.var .int32 "N")
            (.store "N" (.boolLit true) (.var .int32 "t") (.intLit 0)))
          (.evaluate (.call .int32 "halide_mutex_array_unlock"
            (.cons (.var .mutexArrayPtr "m") (.cons (.intLit 0) .nil)))))))
      (some (.call .mutexArrayPtr "halide_mutex_array_create"
        (.cons (.mul (.intLit 1) (.intLit 2)) .nil)))
      "halide_mutex_array_destroy")
    none ""

/-! ### Lemmas relating the analyzer's traversal to the spec-side
predicates -/

mutual

/-- Outside any designated store value (`inside_store` empty), the
let-binding finder reports nothing on expressions. -/
theorem falbExpr_insideEmpty (sn : List String) :
    ∀ (e : Expr) (lb : List (String × Expr)), falbExpr sn lb "" e = false
  | .intLit _, _ => by simp [falbExpr]
  | .boolLit _, _ => by simp [falbExpr]
  | .var _ _, _ => by simp [falbExpr]
  | .letE n v b, lb => by
      simp [falbExpr, falbExpr_insideEmpty sn v lb,
        falbExpr_insideEmpty sn b ((n, v) :: lb)]
  | .mul a b, lb => by
      simp [falbExpr, falbExpr_insideEmpty sn a lb, falbExpr_insideEmpty sn b lb]
  | .call _ _ args, lb => by
      simp [falbExpr, falbExprList_insideEmpty sn args lb]

/-- Outside any designated store value, the let-binding finder reports
nothing on argument vectors. -/
theorem falbExprList_insideEmpty (sn : List String) :
    ∀ (es : ExprList) (lb : List (String × Expr)), falbExprList sn lb "" es = false
  | .nil, _ => by simp [falbExprList]
  | .cons e es, lb => by
      simp [falbExprList, falbExpr_insideEmpty sn e lb,
        falbExprList_insideEmpty sn es lb]

end

mutual

/-- Inside a designated store value (`inside_store` non-empty), the
let-binding finder reports exactly the existence of a variable occurrence
that transitively depends on the store names through the bindings active
at that occurrence. -/
theorem falbExpr_spec (sn : List String) (ins : String) (h : ins ≠ "") :
    ∀ (e : Expr) (lb : List (String × Expr)),
      falbExpr sn lb ins e =
        (varsWithBindings lb e).any (fun vx => varDeps sn vx.1 vx.2)
  | .intLit _, _ => by simp [falbExpr, varsWithBindings]
  | .boolLit _, _ => by simp [falbExpr, varsWithBindings]
  | .var ty x, lb => by
      simp [falbExpr, varsWithBindings, expr_uses_vars, freeVars, h]
  | .letE n v b, lb => by
      simp [falbExpr, varsWithBindings, falbExpr_spec sn ins h v lb,
        falbExpr_spec sn ins h b ((n, v) :: lb)]
  | .mul a b, lb => by
      simp [falbExpr, varsWithBindings, falbExpr_spec sn ins h a lb,
        falbExpr_spec sn ins h b lb]
  | .call _ _ args, lb => by
      simp [falbExpr, varsWithBindings, falbExprList_spec sn ins h args lb]

/-- `falbExpr_spec` for argument vectors. -/
theorem falbExprList_spec (sn : List String) (ins : String) (h : ins ≠ "") :
    ∀ (es : ExprList) (lb : List (String × Expr)),
      falbExprList sn lb ins es =
        (varsWithBindingsList lb es).any (fun vx => varDeps sn vx.1 vx.2)
  | .nil, _ => by simp [falbExprList, varsWithBindingsList]
  | .cons e es, lb => by
      simp [falbExprList, varsWithBindingsList, falbExpr_spec sn ins h e lb,
        falbExprList_spec sn ins h es lb]

end

/-- The store names seen by `storesWithBindings` are exactly those
collected by `CollectStoreNames`, in order. -/
theorem storesWithBindings_names :
    ∀ (s : Stmt) (lb : List (String × Expr)),
      (storesWithBindings lb s).map (fun sb => sb.2.1) = collectStoreNames s
  | .letStmt n v b, lb => by
      simp [storesWithBindings, collectStoreNames, storesWithBindings_names b]
  | .store n p v i, lb => by simp [storesWithBindings, collectStoreNames]
  | .atomic pn mn b, lb => by
      simp [storesWithBindings, collectStoreNames, storesWithBindings_names b]
  | .allocate n ty mt exts cond b newE ff, lb => by
      simp [storesWithBindings, collectStoreNames, storesWithBindings_names b]
  | .producerConsumer n isP b, lb => by
      simp [storesWithBindings, collectStoreNames, storesWithBindings_names b]
  | .block a b, lb => by
      simp [storesWithBindings, collectStoreNames, storesWithBindings_names a,
        storesWithBindings_names b]
  | .evaluate e, lb => by simp [storesWithBindings, collectStoreNames]

/-- The whole-statement traversal of `FindAtomicLetBindings`, started
outside any store, decides exactly the spec-side condition: some store of
the statement (whose names all lie in `sn` and are non-empty) has a value
with a variable occurrence depending on `sn` through its active
bindings. -/
theorem falbStmt_spec (sn : List String) :
    ∀ (s : Stmt) (lb : List (String × Expr)),
      (∀ x ∈ collectStoreNames s, x ≠ "" ∧ x ∈ sn) →
      falbStmt sn lb "" s =
        (storesWithBindings lb s).any (fun sb =>
          (varsWithBindings sb.1 sb.2.2).any (fun vx => varDeps sn vx.1 vx.2))
  | .letStmt n v b, lb, h => by
      simp [falbStmt, storesWithBindings, falbExpr_insideEmpty,
        falbStmt_spec sn b ((n, v) :: lb) (by simpa [collectStoreNames] using h)]
  | .store n p v i, lb, h => by
      obtain ⟨hne, hmem⟩ := h n (by simp [collectStoreNames])
      simp [falbStmt, storesWithBindings, falbExpr_insideEmpty, hmem,
        falbExpr_spec sn n hne v lb]
  | .atomic pn mn b, lb, h => by
      simp [falbStmt, storesWithBindings,
        falbStmt_spec sn b lb (by simpa [collectStoreNames] using h)]
  | .allocate n ty mt exts cond b newE ff, lb, h => by
      cases newE <;>
        simp [falbStmt, storesWithBindings, falbExpr_insideEmpty,
          falbExprList_insideEmpty,
          falbStmt_spec sn b lb (by simpa [collectStoreNames] using h)]
  | .producerConsumer n isP b, lb, h => by
      simp [falbStmt, storesWithBindings,
        falbStmt_spec sn b lb (by simpa [collectStoreNames] using h)]
  | .block a b, lb, h => by
      simp [falbStmt, storesWithBindings,
        falbStmt_spec sn a lb
          (fun x hx => h x (by simp [collectStoreNames, hx])),
        falbStmt_spec sn b lb
          (fun x hx => h x (by simp [collectStoreNames, hx]))]
  | .evaluate e, lb, h => by
      simp [falbStmt, storesWithBindings, falbExpr_insideEmpty]

/-- A statement with no `Store` node has no first store index. -/
theorem findStoreIndex_none_of_noStore :
    ∀ s : Stmt, containsStore s = false → findStoreIndex s = none
  | .letStmt _ _ b, h =>
      findStoreIndex_none_of_noStore b (by simpa [containsStore] using h)
  | .store _ _ _ _, h => by simp [containsStore] at h
  | .atomic _ _ b, h =>
      findStoreIndex_none_of_noStore b (by simpa [containsStore] using h)
  | .allocate _ _ _ _ _ b _ _, h =>
      findStoreIndex_none_of_noStore b (by simpa [containsStore] using h)
  | .producerConsumer _ _ b, h =>
      findStoreIndex_none_of_noStore b (by simpa [containsStore] using h)
  | .block a b, h => by
      simp only [containsStore, Bool.or_eq_false_iff] at h
      simp [findStoreIndex, findStoreIndex_none_of_noStore a h.1,
        findStoreIndex_none_of_noStore b h.2, Option.orElse]
  | .evaluate _, _ => rfl

/-- Wrapping a statement in further atomic regions does not change whether
a `FindStoreInAtomicMutex` traversal that is already inside a
lock-requiring atomic region finds a matching store. -/
theorem findStoreGo_wrapAtomics_found (sn : List String) :
    ∀ (ws : List (String × String)) (st : FindStoreState) (body : Stmt),
      (findStoreGo sn true st (wrapAtomics ws body)).found =
        (findStoreGo sn true st body).found
  | [], st, body => rfl
  | (pn, mn) :: ws, st, body => by
      have ih := findStoreGo_wrapAtomics_found sn ws st body
      simp only [wrapAtomics, findStoreGo]
      split
      · split
        · exact ih
        · exact ih
      · exact ih

/-- The downgrade analyzer changes no `Allocate` node: mutex-allocation
counts are preserved. -/
theorem removeUnnecessaryMutexUse_count (m : String) :
    ∀ s : Stmt,
      mutexAllocCount m (removeUnnecessaryMutexUse s) = mutexAllocCount m s
  | .letStmt n v b => by
      simp [removeUnnecessaryMutexUse, mutexAllocCount,
        removeUnnecessaryMutexUse_count m b]
  | .store n p v i => rfl
  | .atomic pn mn b => by
      simp only [removeUnnecessaryMutexUse]
      split <;>
        simp [mutexAllocCount, removeUnnecessaryMutexUse_count m b]
  | .allocate n ty mt exts cond b newE ff => by
      simp [removeUnnecessaryMutexUse, mutexAllocCount,
        removeUnnecessaryMutexUse_count m b]
  | .producerConsumer n isP b => by
      simp [removeUnnecessaryMutexUse, mutexAllocCount,
        removeUnnecessaryMutexUse_count m b]
  | .block a b => by
      simp [removeUnnecessaryMutexUse, mutexAllocCount,
        removeUnnecessaryMutexUse_count m a, removeUnnecessaryMutexUse_count m b]
  | .evaluate e => rfl

/-- Counting invariant of the synthesizer: starting from an input subtree
that contains no mutex-shaped allocation for the name `m`, a successful
run (i) only grows the `allocated_mutexes` set, (ii) emits no allocation
for `m` when `m` was already in the set, (iii) emits at most one
allocation for `m`, and (iv) records `m` in the final set whenever it
emitted one. -/
theorem addAtomicMutex_count_inv (env : Env) (m : String) :
    ∀ (s : Stmt) (am am' : List String) (out : Stmt),
      mutexAllocCount m s = 0 →
      addAtomicMutexStmt env am s = .ok (am', out) →
      (∀ x ∈ am, x ∈ am') ∧
        (m ∈ am → mutexAllocCount m out = 0) ∧
        mutexAllocCount m out ≤ 1 ∧
        (1 ≤ mutexAllocCount m out → m ∈ am')
  | .letStmt n v b, am, am', out, hcnt, hok => by
      simp only [mutexAllocCount] at hcnt
      simp only [addAtomicMutexStmt] at hok
      split at hok
      · exact Except.noConfusion hok
      · next am1 b1 heq =>
          injection hok with h; injection h with h1 h2
          subst h1; subst h2
          simpa [mutexAllocCount] using
            addAtomicMutex_count_inv env m b am am1 b1 hcnt heq
  | .store n p v i, am, am', out, hcnt, hok => by
      simp only [addAtomicMutexStmt] at hok
      injection hok with h; injection h with h1 h2
      subst h1; subst h2
      exact ⟨fun x hx => hx, fun _ => rfl, by simp [mutexAllocCount],
        by simp [mutexAllocCount]⟩
  | .atomic pn mn b, am, am', out, hcnt, hok => by
      simp only [mutexAllocCount] at hcnt
      simp only [addAtomicMutexStmt] at hok
      split at hok
      · split at hok
        · exact Except.noConfusion hok
        · next am1 b1 heq =>
            injection hok with h; injection h with h1 h2
            subst h1; subst h2
            simpa [mutexAllocCount] using
              addAtomicMutex_count_inv env m b am am1 b1 hcnt heq
      · injection hok with h; injection h with h1 h2
        subst h1; subst h2
        exact ⟨fun x hx => hx, fun _ => by simp [mutexAllocCount, hcnt],
          by simp [mutexAllocCount, hcnt], by simp [mutexAllocCount, hcnt]⟩
  | .allocate n ty mt exts cond b newE ff, am, am', out, hcnt, hok => by
      simp only [mutexAllocCount, Nat.add_eq_zero] at hcnt
      obtain ⟨hif, hb⟩ := hcnt
      simp only [addAtomicMutexStmt] at hok
      split at hok
      · split at hok
        · exact Except.noConfusion hok
        · next am1 b1 heq =>
            injection hok with h; injection h with h1 h2
            subst h1; subst h2
            have ih := addAtomicMutex_count_inv env m b am am1 b1 hb heq
            refine ⟨ih.1, fun hm => ?_, ?_, fun h1 => ?_⟩
            · simp [mutexAllocCount, hif, ih.2.1 hm]
            · simpa [mutexAllocCount, hif] using ih.2.2.1
            · exact ih.2.2.2 (by simpa [mutexAllocCount, hif] using h1)
      · split at hok
        · split at hok
          · exact Except.noConfusion hok
          · next am1 b1 heq =>
              injection hok with h; injection h with h1 h2
              subst h1; subst h2
              have ih := addAtomicMutex_count_inv env m b am am1 b1 hb heq
              refine ⟨ih.1, fun hm => ?_, ?_, fun h1 => ?_⟩
              · simp [mutexAllocCount, hif, ih.2.1 hm]
              · simpa [mutexAllocCount, hif] using ih.2.2.1
              · exact ih.2.2.2 (by simpa [mutexAllocCount, hif] using h1)
        · next hnotmem =>
            split at hok
            · exact Except.noConfusion hok
            · next am1 b1 heq =>
                injection hok with h; injection h with h1 h2
                subst h1; subst h2
                have ih := addAtomicMutex_count_inv env m b
                  ((findStoreInAtomicMutexRun [n] b).mutex_name :: am) am1 b1 hb heq
                by_cases hMm : (findStoreInAtomicMutexRun [n] b).mutex_name = m
                · have hz : mutexAllocCount m b1 = 0 :=
                    ih.2.1 (by rw [hMm]; exact List.mem_cons_self _ _)
                  refine ⟨fun x hx => ih.1 x (List.mem_cons_of_mem _ hx),
                    fun hm => absurd (hMm ▸ hm) hnotmem, ?_, fun _ => ?_⟩
                  · simp [mutexAllocCount, allocate_mutex, hif, hz, hMm]
                  · exact ih.1 m (hMm ▸ List.mem_cons_self _ _)
                · refine ⟨fun x hx => ih.1 x (List.mem_cons_of_mem _ hx),
                    fun hm => ?_, ?_, fun h1 => ?_⟩
                  · have hz : mutexAllocCount m b1 = 0 :=
                      ih.2.1 (List.mem_cons_of_mem _ hm)
                    simp [mutexAllocCount, allocate_mutex, hif, hz, hMm]
                  · simpa [mutexAllocCount, allocate_mutex, hif, hMm] using ih.2.2.1
                  · exact ih.2.2.2
                      (by simpa [mutexAllocCount, allocate_mutex, hif, hMm] using h1)
  | .producerConsumer n isP b, am, am', out, hcnt, hok => by
      simp only [mutexAllocCount] at hcnt
      simp only [addAtomicMutexStmt] at hok
      split at hok
      · split at hok
        · exact Except.noConfusion hok
        · next am1 b1 heq =>
            injection hok with h; injection h with h1 h2
            subst h1; subst h2
            simpa [mutexAllocCount] using
              addAtomicMutex_count_inv env m b am am1 b1 hcnt heq
      · split at hok
        · exact Except.noConfusion hok
        · next f heqf =>
            split at hok
            · exact Except.noConfusion hok
            · next b0 bs hbuf =>
                split at hok
                · split at hok
                  · exact Except.noConfusion hok
                  · next am1 b1 heq =>
                      injection hok with h; injection h with h1 h2
                      subst h1; subst h2
                      simpa [mutexAllocCount] using
                        addAtomicMutex_count_inv env m b am am1 b1 hcnt heq
                · split at hok
                  · split at hok
                    · exact Except.noConfusion hok
                    · next am1 b1 heq =>
                        injection hok with h; injection h with h1 h2
                        subst h1; subst h2
                        simpa [mutexAllocCount] using
                          addAtomicMutex_count_inv env m b am am1 b1 hcnt heq
                  · next hnotmem =>
                      split at hok
                      · exact Except.noConfusion hok
                      · next am1 b1 heq =>
                          injection hok with h; injection h with h1 h2
                          subst h1; subst h2
                          have ih := addAtomicMutex_count_inv env m b
                            ((findStoreInAtomicMutexRun
                              (List.map (fun b => b.name) (b0 :: bs)) b).mutex_name :: am)
                            am1 b1 hcnt heq
                          by_cases hMm : (findStoreInAtomicMutexRun
                              (List.map (fun b => b.name) (b0 :: bs)) b).mutex_name = m
                          · have hMm2 : (findStoreInAtomicMutexRun
                                (b0.name :: List.map (fun b => b.name) bs) b).mutex_name = m := by
                              simpa using hMm
                            have hz : mutexAllocCount m b1 = 0 :=
                              ih.2.1 (by rw [hMm]; exact List.mem_cons_self _ _)
                            refine ⟨fun x hx => ih.1 x (List.mem_cons_of_mem _ hx),
                              fun hm => absurd (hMm ▸ hm) hnotmem, ?_, fun _ => ?_⟩
                            · simp [mutexAllocCount, allocate_mutex, hz, hMm2]
                            · exact ih.1 m (hMm ▸ List.mem_cons_self _ _)
                          · have hMm2 : ¬ (findStoreInAtomicMutexRun
                                (b0.name :: List.map (fun b => b.name) bs) b).mutex_name = m := by
                              simpa using hMm
                            refine ⟨fun x hx => ih.1 x (List.mem_cons_of_mem _ hx),
                              fun hm => ?_, ?_, fun h1 => ?_⟩
                            · have hz : mutexAllocCount m b1 = 0 :=
                                ih.2.1 (List.mem_cons_of_mem _ hm)
                              simp [mutexAllocCount, allocate_mutex, hz, hMm2]
                            · simpa [mutexAllocCount, allocate_mutex, hMm2] using ih.2.2.1
                            · exact ih.2.2.2
                                (by simpa [mutexAllocCount, allocate_mutex, hMm2] using h1)
  | .block a b, am, am', out, hcnt, hok => by
      simp only [mutexAllocCount, Nat.add_eq_zero] at hcnt
      obtain ⟨hca, hcb⟩ := hcnt
      simp only [addAtomicMutexStmt] at hok
      split at hok
      · exact Except.noConfusion hok
      · next am1 a1 heqa =>
          split at hok
          · exact Except.noConfusion hok
          · next am2 b1 heqb =>
              injection hok with h; injection h with h1 h2
              subst h1; subst h2
              have iha := addAtomicMutex_count_inv env m a am am1 a1 hca heqa
              have ihb := addAtomicMutex_count_inv env m b am1 am2 b1 hcb heqb
              refine ⟨fun x hx => ihb.1 x (iha.1 x hx), fun hm => ?_, ?_, fun h1 => ?_⟩
              · simp [mutexAllocCount, iha.2.1 hm, ihb.2.1 (iha.1 m hm)]
              · rcases Nat.lt_or_ge (mutexAllocCount m a1) 1 with hlt | hge
                · have ha0 : mutexAllocCount m a1 = 0 := by omega
                  have := ihb.2.2.1
                  simp [mutexAllocCount, ha0]
                  omega
                · have hb0 : mutexAllocCount m b1 = 0 :=
                    ihb.2.1 (iha.2.2.2 hge)
                  have := iha.2.2.1
                  simp [mutexAllocCount, hb0]
                  omega
              · rcases Nat.lt_or_ge (mutexAllocCount m a1) 1 with hlt | hge
                · have ha0 : mutexAllocCount m a1 = 0 := by omega
                  have hb1 : 1 ≤ mutexAllocCount m b1 := by
                    simp [mutexAllocCount, ha0] at h1
                    omega
                  exact ihb.2.2.2 hb1
                · exact ihb.1 m (iha.2.2.2 hge)
  | .evaluate e, am, am', out, hcnt, hok => by
      simp only [addAtomicMutexStmt] at hok
      injection hok with h; injection h with h1 h2
      subst h1; subst h2
      exact ⟨fun x hx => hx, fun _ => rfl, by simp [mutexAllocCount],
        by simp [mutexAllocCount]⟩

/-! ### Claim theorems -/

/-- C1: for every atomic region processed by the downgrade analyzer (with
the sanity hypothesis that the body's stores name actual, non-empty
buffers): if the region's body contains no memory-store whose stored value
contains a variable reference that transitively depends, through the chain
of let-bindings active there, on any buffer name written by a store in the
same body, the analyzer clears the region's mutex name to empty; and if
such a dependency exists, the mutex name is not cleared. -/
theorem downgrade_clears_iff_no_lifted_dep (pn mn : String) (body : Stmt)
    (h : ∀ x ∈ collectStoreNames body, x ≠ "") :
    removeUnnecessaryMutexUse (.atomic pn mn body) =
      .atomic pn (if specStoreDep body then mn else "")
        (removeUnnecessaryMutexUse body) := by
  have hrw : falbStmt (collectStoreNames body) [] "" body = specStoreDep body := by
    rw [falbStmt_spec (collectStoreNames body) body [] (fun x hx => ⟨h x hx, hx⟩)]
    rfl
  simp only [removeUnnecessaryMutexUse, hrw]
  split <;> rfl

/-- Witness for C1 at a concrete region whose stored value depends on the
stored-to buffer through a let binding. -/
theorem downgrade_clears_iff_no_lifted_dep_witness :
    (∀ x ∈ collectStoreNames c1WitnessBody, x ≠ "") ∧
      removeUnnecessaryMutexUse (.atomic "p" "m" c1WitnessBody) =
        .atomic "p" (if specStoreDep c1WitnessBody then "m" else "")
          (removeUnnecessaryMutexUse c1WitnessBody) :=
  ⟨by decide, downgrade_clears_iff_no_lifted_dep "p" "m" c1WitnessBody (by decide)⟩

/-- C7: for every statement, the downgrade analyzer rebuilds the tree
keeping every node intact except that each atomic region's mutex name is
either exactly preserved or cleared to the empty string — never set to a
non-empty name the region did not carry, and never renamed. -/
theorem downgrade_preserves_or_clears_mutex_names :
    ∀ s : Stmt, MutexNameDowngrade s (removeUnnecessaryMutexUse s)
  | .letStmt n v b =>
      .letStmt (downgrade_preserves_or_clears_mutex_names b)
  | .store n p v i => .store
  | .atomic pn mn b => by
      simp only [removeUnnecessaryMutexUse]
      split
      · exact .atomic (Or.inl rfl) (downgrade_preserves_or_clears_mutex_names b)
      · exact .atomic (Or.inr rfl) (downgrade_preserves_or_clears_mutex_names b)
  | .allocate n ty mt exts cond b newE ff =>
      .allocate (downgrade_preserves_or_clears_mutex_names b)
  | .producerConsumer n isP b =>
      .producerConsumer (downgrade_preserves_or_clears_mutex_names b)
  | .block a b =>
      .block (downgrade_preserves_or_clears_mutex_names a)
        (downgrade_preserves_or_clears_mutex_names b)
  | .evaluate e => .evaluate

/-- C3 (amended): when the synthesizer rewrites an atomic region with a
non-empty mutex name, it does not recursively process the region's body;
the lock/unlock pair (on the index of the body's first store, or `0`) is
wrapped around the original, unprocessed body, and the allocated-mutex
state is unchanged. -/
theorem atomic_lock_wraps_original_body (env : Env) (am : List String)
    (pn mn : String) (body : Stmt) (h : mn ≠ "") :
    addAtomicMutexStmt env am (.atomic pn mn body) =
      .ok (am, .atomic pn mn (.block
        (.evaluate (.call .int32 "halide_mutex_array_lock"
          (.cons (.var .mutexArrayPtr mn)
            (.cons ((findStoreIndex body).getD (.intLit 0)) .nil))))
        (.block body
          (.evaluate (.call .int32 "halide_mutex_array_unlock"
            (.cons (.var .mutexArrayPtr mn)
              (.cons ((findStoreIndex body).getD (.intLit 0)) .nil))))))) := by
  simp [addAtomicMutexStmt, h]

/-- Witness for C3 (amended) at a concrete surviving region. -/
theorem atomic_lock_wraps_original_body_witness :
    ("m" : String) ≠ "" ∧
      addAtomicMutexStmt [] [] (.atomic "p" "m" (.evaluate (.intLit 5))) =
        .ok ([], .atomic "p" "m" (.block
          (.evaluate (.call .int32 "halide_mutex_array_lock"
            (.cons (.var .mutexArrayPtr "m")
              (.cons ((findStoreIndex (.evaluate (.intLit 5))).getD (.intLit 0)) .nil))))
          (.block (.evaluate (.intLit 5))
            (.evaluate (.call .int32 "halide_mutex_array_unlock"
              (.cons (.var .mutexArrayPtr "m")
                (.cons ((findStoreIndex (.evaluate (.intLit 5))).getD (.intLit 0)) .nil))))))) :=
  ⟨by decide,
    atomic_lock_wraps_original_body [] [] "p" "m" (.evaluate (.intLit 5)) (by decide)⟩

/-- Counterexample to C3 as stated: on a region whose body is itself a
surviving atomic region, the synthesizer wraps the lock/unlock pair around
the original body `c3Body`, although processing `c3Body` would have
changed it (to `c3BodyProcessed`). -/
theorem atomic_body_not_recursively_processed_cex :
    addAtomicMutexStmt [] [] (.atomic "p" "m" c3Body) =
        .ok ([], .atomic "p" "m" (.block
          (.evaluate (.call .int32 "halide_mutex_array_lock"
            (.cons (.var .mutexArrayPtr "m") (.cons (.intLit 0) .nil))))
          (.block c3Body
            (.evaluate (.call .int32 "halide_mutex_array_unlock"
              (.cons (.var .mutexArrayPtr "m") (.cons (.intLit 0) .nil))))))) ∧
      addAtomicMutexStmt [] [] c3Body = .ok ([], c3BodyProcessed) ∧
      c3BodyProcessed ≠ c3Body :=
  ⟨rfl, rfl, by decide⟩

/-- C8: for an atomic region with a non-empty mutex name whose body
contains no memory-store node at all, the emitted lock and unlock calls
both use the constant index `0`. -/
theorem scalar_atomic_locks_index_zero (env : Env) (am : List String)
    (pn mn : String) (body : Stmt) (h : mn ≠ "")
    (hns : containsStore body = false) :
    addAtomicMutexStmt env am (.atomic pn mn body) =
      .ok (am, .atomic pn mn (.block
        (.evaluate (.call .int32 "halide_mutex_array_lock"
          (.cons (.var .mutexArrayPtr mn) (.cons (.intLit 0) .nil))))
        (.block body
          (.evaluate (.call .int32 "halide_mutex_array_unlock"
            (.cons (.var .mutexArrayPtr mn) (.cons (.intLit 0) .nil))))))) := by
  simp [addAtomicMutexStmt, h, findStoreIndex_none_of_noStore body hns]

/-- Witness for C8 at a concrete scalar (store-free) atomic region. -/
theorem scalar_atomic_locks_index_zero_witness :
    (("m" : String) ≠ "" ∧ containsStore (.evaluate (.intLit 7)) = false) ∧
      addAtomicMutexStmt [] [] (.atomic "p" "m" (.evaluate (.intLit 7))) =
        .ok ([], .atomic "p" "m" (.block
          (.evaluate (.call .int32 "halide_mutex_array_lock"
            (.cons (.var .mutexArrayPtr "m") (.cons (.intLit 0) .nil))))
          (.block (.evaluate (.intLit 7))
            (.evaluate (.call .int32 "halide_mutex_array_unlock"
              (.cons (.var .mutexArrayPtr "m") (.cons (.intLit 0) .nil))))))) :=
  ⟨⟨by decide, by decide⟩,
    scalar_atomic_locks_index_zero [] [] "p" "m" (.evaluate (.intLit 7))
      (by decide) (by decide)⟩

/-- C2 (amended): after any successful run of the mutex synthesizer, every
atomic region with a non-empty mutex name that is not nested inside the
body of another such region has its body wrapped so that a lock call on
its mutex array strictly precedes the body and an unlock call on the same
array and index strictly follows it on the normal exit path. (Regions
nested inside a surviving region's body are left as they were: the
synthesizer does not descend into a wrapped body.) -/
theorem outer_surviving_regions_lock_wrapped (env : Env) :
    ∀ (s : Stmt) (am am' : List String) (out : Stmt),
      addAtomicMutexStmt env am s = .ok (am', out) → outerSurvWrapped out = true
  | .letStmt n v b, am, am', out, hok => by
      simp only [addAtomicMutexStmt] at hok
      split at hok
      · exact Except.noConfusion hok
      · next am1 b1 heq =>
          injection hok with h; injection h with h1 h2
          subst h2
          simpa [outerSurvWrapped] using
            outer_surviving_regions_lock_wrapped env b am am1 b1 heq
  | .store n p v i, am, am', out, hok => by
      simp only [addAtomicMutexStmt] at hok
      injection hok with h; injection h with h1 h2
      subst h2
      simp [outerSurvWrapped]
  | .atomic pn mn b, am, am', out, hok => by
      simp only [addAtomicMutexStmt] at hok
      split at hok
      · next hmn =>
          split at hok
          · exact Except.noConfusion hok
          · next am1 b1 heq =>
              injection hok with h; injection h with h1 h2
              subst h2
              simpa [outerSurvWrapped, hmn] using
                outer_surviving_regions_lock_wrapped env b am am1 b1 heq
      · next hmn =>
          injection hok with h; injection h with h1 h2
          subst h2
          simp [outerSurvWrapped, hmn, lockWrapped]
  | .allocate n ty mt exts cond b newE ff, am, am', out, hok => by
      simp only [addAtomicMutexStmt] at hok
      split at hok
      · split at hok
        · exact Except.noConfusion hok
        · next am1 b1 heq =>
            injection hok with h; injection h with h1 h2
            subst h2
            simpa [outerSurvWrapped] using
              outer_surviving_regions_lock_wrapped env b am am1 b1 heq
      · split at hok
        · split at hok
          · exact Except.noConfusion hok
          · next am1 b1 heq =>
              injection hok with h; injection h with h1 h2
              subst h2
              simpa [outerSurvWrapped] using
                outer_surviving_regions_lock_wrapped env b am am1 b1 heq
        · split at hok
          · exact Except.noConfusion hok
          · next am1 b1 heq =>
              injection hok with h; injection h with h1 h2
              subst h2
              simpa [outerSurvWrapped, allocate_mutex] using
                outer_surviving_regions_lock_wrapped env b _ am1 b1 heq
  | .producerConsumer n isP b, am, am', out, hok => by
      simp only [addAtomicMutexStmt] at hok
      split at hok
      · split at hok
        · exact Except.noConfusion hok
        · next am1 b1 heq =>
            injection hok with h; injection h with h1 h2
            subst h2
            simpa [outerSurvWrapped] using
              outer_surviving_regions_lock_wrapped env b am am1 b1 heq
      · split at hok
        · exact Except.noConfusion hok
        · next f hf =>
            split at hok
            · exact Except.noConfusion hok
            · next b0 bs hbuf =>
                split at hok
                · split at hok
                  · exact Except.noConfusion hok
                  · next am1 b1 heq =>
                      injection hok with h; injection h with h1 h2
                      subst h2
                      simpa [outerSurvWrapped] using
                        outer_surviving_regions_lock_wrapped env b am am1 b1 heq
                · split at hok
                  · split at hok
                    · exact Except.noConfusion hok
                    · next am1 b1 heq =>
                        injection hok with h; injection h with h1 h2
                        subst h2
                        simpa [outerSurvWrapped] using
                          outer_surviving_regions_lock_wrapped env b am am1 b1 heq
                  · split at hok
                    · exact Except.noConfusion hok
                    · next am1 b1 heq =>
                        injection hok with h; injection h with h1 h2
                        subst h2
                        simpa [outerSurvWrapped, allocate_mutex] using
                          outer_surviving_regions_lock_wrapped env b _ am1 b1 heq
  | .block a b, am, am', out, hok => by
      simp only [addAtomicMutexStmt] at hok
      split at hok
      · exact Except.noConfusion hok
      · next am1 a1 heqa =>
          split at hok
          · exact Except.noConfusion hok
          · next am2 b1 heqb =>
              injection hok with h; injection h with h1 h2
              subst h2
              have iha := outer_surviving_regions_lock_wrapped env a am am1 a1 heqa
              have ihb := outer_surviving_regions_lock_wrapped env b am1 am2 b1 heqb
              simp [outerSurvWrapped, iha, ihb]
  | .evaluate e, am, am', out, hok => by
      simp only [addAtomicMutexStmt] at hok
      injection hok with h; injection h with h1 h2
      subst h2
      simp [outerSurvWrapped]

/-- Witness for C2 (amended) at a concrete run. -/
theorem outer_surviving_regions_lock_wrapped_witness :
    addAtomicMutexStmt [] [] (.atomic "p" "m" (.evaluate (.intLit 1))) =
        .ok ([], .atomic "p" "m" (.block
          (.evaluate (.call .int32 "halide_mutex_array_lock"
            (.cons (.var .mutexArrayPtr "m") (.cons (.intLit 0) .nil))))
          (.block (.evaluate (.intLit 1))
            (.evaluate (.call .int32 "halide_mutex_array_unlock"
              (.cons (.var .mutexArrayPtr "m") (.cons (.intLit 0) .nil))))))) ∧
      outerSurvWrapped (.atomic "p" "m" (.block
        (.evaluate (.call .int32 "halide_mutex_array_lock"
          (.cons (.var .mutexArrayPtr "m") (.cons (.intLit 0) .nil))))
        (.block (.evaluate (.intLit 1))
          (.evaluate (.call .int32 "halide_mutex_array_unlock"
            (.cons (.var .mutexArrayPtr "m") (.cons (.intLit 0) .nil))))))) = true :=
  ⟨rfl,
    outer_surviving_regions_lock_wrapped [] (.atomic "p" "m" (.evaluate (.intLit 1)))
      [] [] _ rfl⟩

/-- Counterexample to C2 as stated: running the synthesizer on a surviving
region whose body is itself a surviving region leaves the nested region's
body un-wrapped, so not every surviving region (including nested ones) is
lock-wrapped in the output. -/
theorem nested_surviving_region_not_wrapped_cex :
    addAtomicMutexStmt [] [] (.atomic "p" "m" c3Body) =
        .ok ([], .atomic "p" "m" (.block
          (.evaluate (.call .int32 "halide_mutex_array_lock"
            (.cons (.var .mutexArrayPtr "m") (.cons (.intLit 0) .nil))))
          (.block c3Body
            (.evaluate (.call .int32 "halide_mutex_array_unlock"
              (.cons (.var .mutexArrayPtr "m") (.cons (.intLit 0) .nil))))))) ∧
      allSurvWrapped (.atomic "p" "m" (.block
        (.evaluate (.call .int32 "halide_mutex_array_lock"
          (.cons (.var .mutexArrayPtr "m") (.cons (.intLit 0) .nil))))
        (.block c3Body
          (.evaluate (.call .int32 "halide_mutex_array_unlock"
            (.cons (.var .mutexArrayPtr "m") (.cons (.intLit 0) .nil))))))) = false :=
  ⟨rfl, by decide⟩

/-- C9: under the hypothesis that every producer-phase name occurring in
the tree is a key of the function environment, the synthesizer never
dereferences a failed environment lookup (modelled as the
`envLookupFailed` outcome) — the implicit precondition of the unchecked
`env.find(op->name)` dereference. -/
theorem pass_total_when_producers_bound (env : Env) :
    ∀ (s : Stmt) (am : List String) (nm : String),
      producerNamesBound env s = true →
      addAtomicMutexStmt env am s ≠ .error (.envLookupFailed nm)
  | .letStmt n v b, am, nm, h => by
      simp only [producerNamesBound] at h
      simp only [addAtomicMutexStmt]
      split
      · next e heq =>
          intro hc
          injection hc with h1
          exact pass_total_when_producers_bound env b am nm h (h1 ▸ heq)
      · intro hc; exact Except.noConfusion hc
  | .store n p v i, am, nm, h => by
      simp only [addAtomicMutexStmt]
      intro hc; exact Except.noConfusion hc
  | .atomic pn mn b, am, nm, h => by
      simp only [producerNamesBound] at h
      simp only [addAtomicMutexStmt]
      split
      · split
        · next e heq =>
            intro hc
            injection hc with h1
            exact pass_total_when_producers_bound env b am nm h (h1 ▸ heq)
        · intro hc; exact Except.noConfusion hc
      · intro hc; exact Except.noConfusion hc
  | .allocate n ty mt exts cond b newE ff, am, nm, h => by
      simp only [producerNamesBound] at h
      simp only [addAtomicMutexStmt]
      split
      · split
        · next e heq =>
            intro hc
            injection hc with h1
            exact pass_total_when_producers_bound env b am nm h (h1 ▸ heq)
        · intro hc; exact Except.noConfusion hc
      · split
        · split
          · next e heq =>
              intro hc
              injection hc with h1
              exact pass_total_when_producers_bound env b am nm h (h1 ▸ heq)
          · intro hc; exact Except.noConfusion hc
        · split
          · next e heq =>
              intro hc
              injection hc with h1
              exact pass_total_when_producers_bound env b _ nm h (h1 ▸ heq)
          · intro hc; exact Except.noConfusion hc
  | .producerConsumer n isP b, am, nm, h => by
      simp only [producerNamesBound, Bool.and_eq_true, Bool.or_eq_true] at h
      obtain ⟨hor, hb⟩ := h
      simp only [addAtomicMutexStmt]
      split
      · split
        · next e heq =>
            intro hc
            injection hc with h1
            exact pass_total_when_producers_bound env b am nm hb (h1 ▸ heq)
        · intro hc; exact Except.noConfusion hc
      · next hisP =>
          have hsome : (envFind env n).isSome = true := by
            rcases hor with h1 | h2
            · exact absurd (of_decide_eq_true h1) hisP
            · exact h2
          split
          · next heq => rw [heq] at hsome; simp at hsome
          · next f heq =>
              split
              · intro hc
                injection hc with h1
                exact PassError.noConfusion h1
              · next b0 bs hbuf =>
                  split
                  · split
                    · next e heqb =>
                        intro hc
                        injection hc with h1
                        exact pass_total_when_producers_bound env b am nm hb (h1 ▸ heqb)
                    · intro hc; exact Except.noConfusion hc
                  · split
                    · split
                      · next e heqb =>
                          intro hc
                          injection hc with h1
                          exact pass_total_when_producers_bound env b am nm hb (h1 ▸ heqb)
                      · intro hc; exact Except.noConfusion hc
                    · split
                      · next e heqb =>
                          intro hc
                          injection hc with h1
                          exact pass_total_when_producers_bound env b _ nm hb (h1 ▸ heqb)
                      · intro hc; exact Except.noConfusion hc
  | .block a b, am, nm, h => by
      simp only [producerNamesBound] at h
      rw [Bool.and_eq_true] at h
      obtain ⟨ha, hb⟩ := h
      simp only [addAtomicMutexStmt]
      split
      · next e heq =>
          intro hc
          injection hc with h1
          exact pass_total_when_producers_bound env a am nm ha (h1 ▸ heq)
      · next am1 a1 heqa =>
          split
          · next e heq =>
              intro hc
              injection hc with h1
              exact pass_total_when_producers_bound env b am1 nm hb (h1 ▸ heq)
          · intro hc; exact Except.noConfusion hc
  | .evaluate e, am, nm, h => by
      simp only [addAtomicMutexStmt]
      intro hc; exact Except.noConfusion hc

/-- Witness for C9 at a concrete tree containing a bound producer. -/
theorem pass_total_when_producers_bound_witness :
    producerNamesBound [("f", ⟨[⟨"fb", [.intLit 3]⟩]⟩)]
        (.producerConsumer "f" true
          (.atomic "p" "m" (.store "fb" (.boolLit true) (.intLit 1) (.intLit 0)))) = true ∧
      addAtomicMutexStmt [("f", ⟨[⟨"fb", [.intLit 3]⟩]⟩)] []
          (.producerConsumer "f" true
            (.atomic "p" "m" (.store "fb" (.boolLit true) (.intLit 1) (.intLit 0)))) ≠
        .error (.envLookupFailed "g") :=
  ⟨by decide,
    pass_total_when_producers_bound [("f", ⟨[⟨"fb", [.intLit 3]⟩]⟩)]
      (.producerConsumer "f" true
        (.atomic "p" "m" (.store "fb" (.boolLit true) (.intLit 1) (.intLit 0))))
      [] "g" (by decide)⟩

/-- C10: when a matching store lies inside several nested lock-requiring
atomic regions and nothing was found before, the store-in-atomic finder
reports the producer name and mutex name of the outermost lock-requiring
region: every enclosing region overwrites the recorded names after its
body's search succeeds. -/
theorem finder_reports_outermost_atomic (sn : List String)
    (ws : List (String × String)) (pn mn : String) (body : Stmt)
    (hmn : mn ≠ "") (_hws : ∀ w ∈ ws, Prod.snd w ≠ "")
    (hfound : (findStoreGo sn true initFindStoreState body).found = true) :
    findStoreInAtomicMutexRun sn (wrapAtomics ((pn, mn) :: ws) body) =
      { found := true, producer_name := pn, mutex_name := mn } := by
  have hf : (findStoreGo sn true initFindStoreState (wrapAtomics ws body)).found = true := by
    rw [findStoreGo_wrapAtomics_found sn ws initFindStoreState body]
    exact hfound
  unfold findStoreInAtomicMutexRun
  simp only [wrapAtomics, findStoreGo]
  rw [if_pos (⟨rfl, hmn⟩ : initFindStoreState.found = false ∧ mn ≠ "")]
  rw [if_pos hf]
  cases hst : findStoreGo sn true initFindStoreState (wrapAtomics ws body) with
  | mk fd p m =>
      rw [hst] at hf
      have hf2 : fd = true := hf
      subst hf2
      rfl

/-- Witness for C10: a store nested in two lock-requiring atomic regions is
reported with the outermost region's names. -/
theorem finder_reports_outermost_atomic_witness :
    (("m" : String) ≠ "" ∧ (∀ w ∈ [("q", "n")], Prod.snd w ≠ ("" : String)) ∧
        (findStoreGo ["b"] true initFindStoreState
          (.store "b" (.boolLit true) (.intLit 1) (.intLit 0))).found = true) ∧
      findStoreInAtomicMutexRun ["b"]
          (wrapAtomics [("p", "m"), ("q", "n")]
            (.store "b" (.boolLit true) (.intLit 1) (.intLit 0))) =
        { found := true, producer_name := "p", mutex_name := "m" } :=
  ⟨⟨by decide, by decide, by decide⟩,
    finder_reports_outermost_atomic ["b"] [("q", "n")] "p" "m"
      (.store "b" (.boolLit true) (.intLit 1) (.intLit 0))
      (by decide) (by decide) (by decide)⟩

/-- C5: across one whole run of the pipeline on a tree that contains no
pre-existing mutex-shaped allocation named `m`, at most one mutex-array
allocation named `m` is emitted — even when several allocation or producer
sites reference the same mutex name. -/
theorem at_most_one_mutex_allocation_per_name (env : Env) (m : String)
    (s : Stmt) (out : Stmt) (h0 : mutexAllocCount m s = 0)
    (hok : add_atomic_mutex s env = .ok out) :
    mutexAllocCount m out ≤ 1 := by
  unfold add_atomic_mutex at hok
  split at hok
  · exact Except.noConfusion hok
  · next am' s' heq =>
      injection hok with h2
      subst h2
      have hcnt : mutexAllocCount m (removeUnnecessaryMutexUse s) = 0 := by
        rw [removeUnnecessaryMutexUse_count]; exact h0
      exact (addAtomicMutex_count_inv env m (removeUnnecessaryMutexUse s)
        [] am' s' hcnt heq).2.2.1

/-- Witness for C5: a pipeline run that allocates the mutex `m` exactly
once. -/
theorem at_most_one_mutex_allocation_per_name_witness :
    (mutexAllocCount "m" c5WitnessIn = 0 ∧
        add_atomic_mutex c5WitnessIn [] = .ok c5WitnessOut) ∧
      mutexAllocCount "m" c5WitnessOut ≤ 1 :=
  ⟨⟨by decide, rfl⟩,
    at_most_one_mutex_allocation_per_name [] "m" c5WitnessIn c5WitnessOut
      (by decide) rfl⟩

/-- C4 (amended): at an allocation node of buffer `n` with extents `exts`
whose body contains a surviving lock-requiring atomic region with a
matching store, and whose reported mutex name `M` has not yet been
allocated, the synthesizer rebuilds the node with its body wrapped in
exactly one mutex-array allocation named `M`: its creation call's
element-count argument is the product of the declared extents (the
literal `1` when the extents list is empty), and the matching destruction
call is attached as the free function of that same allocation, invoked
when its scope ends. If `M` was already allocated, no new creation call is
emitted at this allocation (see the counterexample). -/
theorem fresh_mutex_allocation_unique_create_destroy (env : Env) (am : List String)
    (n : String) (ty : IRType) (mt : MemoryType) (exts : List Expr) (cond : Expr)
    (body : Stmt) (newE : Option Expr) (ff : String) (M : String)
    (am' : List String) (out : Stmt)
    (hM : (findStoreInAtomicMutexRun [n] body).mutex_name = M)
    (hf : (findStoreInAtomicMutexRun [n] body).found = true)
    (hfresh : M ∉ am)
    (hcnt : mutexAllocCount M (.allocate n ty mt exts cond body newE ff) = 0)
    (hok : addAtomicMutexStmt env am (.allocate n ty mt exts cond body newE ff) =
      .ok (am', out)) :
    ∃ b', out = .allocate n ty mt exts cond
        (.allocate M .handleTy .stackMem [] (.boolLit true) b'
          (some (.call .mutexArrayPtr "halide_mutex_array_create"
            (.cons (extentProduct exts) .nil)))
          "halide_mutex_array_destroy") newE ff ∧
      mutexAllocCount M out = 1 ∧
      (exts = [] → extentProduct exts = .intLit 1) := by
  simp only [mutexAllocCount, Nat.add_eq_zero] at hcnt
  obtain ⟨hif, hbody⟩ := hcnt
  simp only [addAtomicMutexStmt] at hok
  rw [if_neg (by simp [hf])] at hok
  rw [hM] at hok
  rw [if_neg hfresh] at hok
  split at hok
  · exact Except.noConfusion hok
  · next am1 b1 heq =>
      injection hok with h; injection h with h1 h2
      subst h1; subst h2
      refine ⟨b1, ?_, ?_, fun he => by subst he; rfl⟩
      · simp [allocate_mutex]
      · have ih := addAtomicMutex_count_inv env M body (M :: am) am1 b1 hbody heq
        have hz : mutexAllocCount M b1 = 0 := ih.2.1 (List.mem_cons_self _ _)
        simp [mutexAllocCount, allocate_mutex, hif, hz]

/-- Witness for C4 (amended) at a concrete allocation with extent 3. -/
theorem fresh_mutex_allocation_unique_create_destroy_witness :
    ∃ b', c4WitnessOut = .allocate "N" .int32 .stackMem [.intLit 3] (.boolLit true)
        (.allocate "m" .handleTy .stackMem [] (.boolLit true) b'
          (some (.call .mutexArrayPtr "halide_mutex_array_create"
            (.cons (extentProduct [.intLit 3]) .nil)))
          "halide_mutex_array_destroy") none "" ∧
      mutexAllocCount "m" c4WitnessOut = 1 ∧
      (([.intLit 3] : List Expr) = [] → extentProduct [.intLit 3] = .intLit 1) :=
  fresh_mutex_allocation_unique_create_destroy [] [] "N" .int32 .stackMem
    [.intLit 3] (.boolLit true)
    (.atomic "p" "m" (.store "N" (.boolLit true) (.intLit 1) (.intLit 0)))
    none "" "m" ["m"] c4WitnessOut (by decide) (by decide) (by decide) (by decide) rfl

/-- Counterexample to C4 as stated: in `c4CexIn` the allocation of `N2`
(extents `[8]`) sits above a surviving lock-requiring atomic region with a
matching store (reported mutex name `m`), yet the whole pipeline emits
exactly one mutex-array creation call, whose argument is `1*7` (the
extents of `N1`, where `m` was first allocated) — no creation call with
argument `1*8` exists. -/
theorem shared_mutex_allocation_extents_cex :
    removeUnnecessaryMutexUse c4CexIn = c4CexIn ∧
      (findStoreInAtomicMutexRun ["N2"] c4CexAtomic).found = true ∧
      (findStoreInAtomicMutexRun ["N2"] c4CexAtomic).mutex_name = "m" ∧
      pipelineCreateArgs c4CexIn [] =
        some [.cons (.mul (.intLit 1) (.intLit 7)) .nil] :=
  ⟨by decide, by decide, by decide, by decide⟩

/-- C6 (code-bug evaluation): a producer-phase node whose function declares
zero output buffers aborts with the fatal diagnostic even though its body
contains no atomic region at all — although the assert's own message
claims an atomic node requiring a mutex lock was found. -/
theorem producer_without_outputs_aborts_eval :
    addAtomicMutexStmt [("f", ⟨[]⟩)] []
        (.producerConsumer "f" true (.evaluate (.intLit 0))) =
      .error (.noOutputBuffers "f") := rfl

end AddAtomicMutexPass
